import Mathlib

/-!
Verification development for the happy-cli Codex session relay and
approval-arbitration layer.

The definitions below are a shallow embedding of the TypeScript sources:

* `src/codex/utils/codexElicitation.ts` — approval decision mapping and the
  loose zod schema for `elicitation/create` requests;
* `src/codex/utils/codexConfig.ts` — hint extraction from `config.toml`;
* `src/ui/ink/CodexDisplay.tsx` — the interactive display state machine
  (exit confirmation, settings overlay, pickers, prompt editor).

JavaScript strings are modelled by Lean `String` (lengths count code points
rather than UTF-16 units; no input considered here contains surrogate
pairs).  `String.prototype.trim` is embedded explicitly as `jsTrim`, using
the ECMAScript whitespace set.  File access and timers are modelled by
explicit parameters: the config file content is an `Option String`, and the
15-second confirmation timer is implicit in `confirmationMode` (the code
keeps the pending-timeout ref in lockstep with that flag).
-/

/-- Whitespace per ECMAScript (WhiteSpace ∪ LineTerminator), the set used by
`String.prototype.trim` and by `\s` in the regexes of the source. -/
def isJsWhitespace (c : Char) : Bool :=
  c.val == 0x09 || c.val == 0x0A || c.val == 0x0B || c.val == 0x0C ||
  c.val == 0x0D || c.val == 0x20 || c.val == 0xA0 || c.val == 0x1680 ||
  (0x2000 ≤ c.val && c.val ≤ 0x200A) || c.val == 0x2028 || c.val == 0x2029 ||
  c.val == 0x202F || c.val == 0x205F || c.val == 0x3000 || c.val == 0xFEFF

/-- Trim on the character list: drop ECMAScript whitespace from both ends. -/
def jsTrimList (l : List Char) : List Char :=
  ((l.dropWhile isJsWhitespace).reverse.dropWhile isJsWhitespace).reverse

/-- Embedding of JavaScript `String.prototype.trim`. -/
def jsTrim (s : String) : String :=
  String.mk (jsTrimList s.data)

/-- `String.startsWith`, computed on the character lists. -/
def strStartsWith (s pre : String) : Bool :=
  pre.data.isPrefixOf s.data

/-- `String.endsWith`, computed on the character lists. -/
def strEndsWith (s post : String) : Bool :=
  post.data.isSuffixOf s.data

/-- `String.take` / `slice(0, n)`, computed on the character lists. -/
def strTake (s : String) (n : Nat) : String :=
  String.mk (s.data.take n)

/-- `String.drop` / `slice(n)`, computed on the character lists. -/
def strDrop (s : String) (n : Nat) : String :=
  String.mk (s.data.drop n)

/-- `String.dropRight` / `slice(0, -n)`, computed on the character lists. -/
def strDropRight (s : String) (n : Nat) : String :=
  String.mk (s.data.take (s.data.length - n))

/-- Character membership in a string, computed on the character list. -/
def strContains (s : String) (c : Char) : Bool :=
  s.data.contains c

/-! ## Approval relay (`codexElicitation.ts`) -/

/-- `CodexApprovalDecision` from `codexElicitation.ts`. -/
inductive CodexApprovalDecision where
  | approved
  | approved_for_session
  | denied
  | abort
deriving DecidableEq, Repr

/-- `CodexElicitationAction` from `codexElicitation.ts`. -/
inductive CodexElicitationAction where
  | accept
  | decline
  | cancel
deriving DecidableEq, Repr

/-- `codexActionForDecision` from `codexElicitation.ts` (lines 34–42):
`approved` / `approved_for_session` map to `accept`, `denied` to `decline`,
everything else (`abort`) to `cancel`. -/
def codexActionForDecision (decision : CodexApprovalDecision) : CodexElicitationAction :=
  if decision = .approved ∨ decision = .approved_for_session then
    .accept
  else if decision = .denied then
    .decline
  else
    .cancel

/-- Result record of `codexElicitationResponseForDecision`. -/
structure CodexElicitationResponse where
  action : CodexElicitationAction
  decision : CodexApprovalDecision
deriving DecidableEq, Repr

/-- `codexElicitationResponseForDecision` from `codexElicitation.ts`
(lines 44–52). -/
def codexElicitationResponseForDecision (decision : CodexApprovalDecision) :
    CodexElicitationResponse :=
  { action := codexActionForDecision decision, decision := decision }

/-! ## JSON values and the loose elicitation schema (`codexElicitation.ts`) -/

/-- JSON-like values exchanged with the agent protocol. Objects are key/value
lists with distinct keys (JavaScript object semantics); lookup takes the
first binding. -/
inductive Json where
  | null
  | bool (b : Bool)
  | num (n : Int)
  | str (s : String)
  | arr (items : List Json)
  | obj (fields : List (String × Json))

/-- First-match field lookup in a JSON object. -/
def jlookup : List (String × Json) → String → Option Json
  | [], _ => none
  | (k, v) :: rest, key => if k = key then some v else jlookup rest key

/-- Check for `z.string()`. -/
def jsonIsStr : Json → Bool
  | .str _ => true
  | _ => false

/-- Check for `z.array(z.string())`. -/
def jsonIsStrArray : Json → Bool
  | .arr items => items.all jsonIsStr
  | _ => false

/-- Check for `z.record(z.string(), z.any())`. -/
def jsonIsObj : Json → Bool
  | .obj _ => true
  | _ => false

/-- Validation of a `.optional()` field: absence passes, presence must
satisfy the field check. -/
def optFieldOk (fields : List (String × Json)) (key : String)
    (check : Json → Bool) : Bool :=
  match jlookup fields key with
  | none => true
  | some v => check v

/-- Checks on the `params` object of `CodexElicitationCreateRequestSchema`:
`message` is a required string; `requestedSchema`, `codex_parsed_cmd` are
`z.any().optional()` (no constraint); the remaining declared `codex_*`
fields are type-checked only when present; all other keys pass through. -/
def codexElicitationParamsOk (ps : List (String × Json)) : Bool :=
  (match jlookup ps "message" with
    | some (.str _) => true
    | _ => false)
  && optFieldOk ps "codex_elicitation" jsonIsStr
  && optFieldOk ps "codex_mcp_tool_call_id" jsonIsStr
  && optFieldOk ps "codex_event_id" jsonIsStr
  && optFieldOk ps "codex_call_id" jsonIsStr
  && optFieldOk ps "codex_command" jsonIsStrArray
  && optFieldOk ps "codex_cwd" jsonIsStr
  && optFieldOk ps "codex_changes" jsonIsObj

/-- `CodexElicitationCreateRequestSchema.parse` from `codexElicitation.ts`
(lines 12–27): a passthrough object with `method` the literal
`elicitation/create` and `params` a passthrough object validated by
`codexElicitationParamsOk`.  On success zod returns an object with exactly
the same key/value bindings, which we model as returning the input. -/
def codexElicitationCreateRequestParse (j : Json) : Option Json :=
  match j with
  | .obj fields =>
    match jlookup fields "method", jlookup fields "params" with
    | some (.str m), some (.obj ps) =>
      if m = "elicitation/create" && codexElicitationParamsOk ps then
        some j
      else
        none
    | _, _ => none
  | _ => none

/-! ## Run settings and option hints (`CodexDisplay.tsx`) -/

/-- `PermissionMode` from `CodexDisplay.tsx` (line 5). -/
inductive PermissionMode where
  | default
  | readOnly
  | safeYolo
  | yolo
deriving DecidableEq, Repr

/-- `CodexSettings` from `CodexDisplay.tsx` (lines 7–12); `none` models an
absent (`undefined`) field. -/
structure CodexSettings where
  model : Option String := none
  permissionMode : Option PermissionMode := none
  profile : Option String := none
  reasoningEffort : Option String := none
deriving DecidableEq, Repr

/-- `CodexModelHints` from `CodexDisplay.tsx` / `codexConfig.ts`. -/
structure CodexModelHints where
  defaultModel : Option String := none
  migratedModel : Option String := none
  defaultReasoningEffort : Option String := none
  profiles : Option (List String) := none
deriving DecidableEq, Repr

/-- `PickerOption` from `CodexDisplay.tsx` (line 234). -/
structure PickerOption where
  value : String
  label : String
  description : Option String := none
deriving DecidableEq, Repr

/-- `CUSTOM_PICKER_VALUE` from `CodexDisplay.tsx` (line 235). -/
def CUSTOM_PICKER_VALUE : String := "__custom__"

/-- The `pushUnique` helper shared by the three picker builders: append the
option unless its value was already seen. The accumulator carries the option
list and the `seen` value set (as a list). -/
def pushUnique (acc : List PickerOption × List String) (opt : PickerOption) :
    List PickerOption × List String :=
  if opt.value ∈ acc.2 then acc else (acc.1 ++ [opt], acc.2 ++ [opt.value])

/-- Run the sequence of `pushUnique` calls of a picker builder over its
candidate options, in order. -/
def buildPickerOptions (candidates : List PickerOption) : List PickerOption :=
  (candidates.foldl pushUnique ([], [])).1

/-- Candidate options of `getModelPickerOptions` (`CodexDisplay.tsx`
lines 237–267), in the order the source pushes them. -/
def modelPickerCandidates (modelHints : CodexModelHints) (draftModel : String) :
    List PickerOption :=
  [{ value := "",
     label := "(default)",
     description := some (match modelHints.defaultModel with
       | some d => "Uses Codex default (" ++ d ++ ")."
       | none => "Uses Codex default.") }]
  ++ (match modelHints.migratedModel with
      | some s =>
        [{ value := s, label := s, description := some "Suggested by Codex migration notices." }]
      | none => [])
  ++ (match modelHints.defaultModel with
      | some d =>
        [{ value := d, label := d, description := some "Current Codex default model." }]
      | none => [])
  ++ (let current := jsTrim draftModel
      if current ≠ "" then
        [{ value := current, label := current ++ " (current)", description := some "Your current selection." }]
      else [])
  ++ [{ value := CUSTOM_PICKER_VALUE, label := "Custom…", description := some "Type a model name manually." }]

/-- `getModelPickerOptions` from `CodexDisplay.tsx` (lines 237–267). -/
def getModelPickerOptions (modelHints : CodexModelHints) (draftModel : String) :
    List PickerOption :=
  buildPickerOptions (modelPickerCandidates modelHints draftModel)

/-- Candidate options of `getProfilePickerOptions` (`CodexDisplay.tsx`
lines 269–291), in push order. -/
def profilePickerCandidates (modelHints : CodexModelHints) (draftProfile : String) :
    List PickerOption :=
  [{ value := "", label := "(default)", description := some "Uses Codex default profile." }]
  ++ (modelHints.profiles.getD []).map (fun profileName =>
      { value := profileName, label := profileName })
  ++ (let current := jsTrim draftProfile
      if current ≠ "" then
        [{ value := current, label := current ++ " (current)" }]
      else [])
  ++ [{ value := CUSTOM_PICKER_VALUE, label := "Custom…", description := some "Type a profile name manually." }]

/-- `getProfilePickerOptions` from `CodexDisplay.tsx` (lines 269–291). -/
def getProfilePickerOptions (modelHints : CodexModelHints) (draftProfile : String) :
    List PickerOption :=
  buildPickerOptions (profilePickerCandidates modelHints draftProfile)

/-- Candidate options of `getReasoningEffortPickerOptions`
(`CodexDisplay.tsx` lines 293–322), in push order. -/
def reasoningEffortPickerCandidates (modelHints : CodexModelHints)
    (draftReasoningEffort : String) : List PickerOption :=
  [{ value := "",
     label := "(default)",
     description := some (match modelHints.defaultReasoningEffort with
       | some d => "Uses Codex default (" ++ d ++ ")."
       | none => "Uses Codex default.") }]
  ++ (["low", "medium", "high", "xhigh"].map (fun v => { value := v, label := v }))
  ++ (match modelHints.defaultReasoningEffort with
      | some d => [{ value := d, label := d ++ " (default)" }]
      | none => [])
  ++ (let current := jsTrim draftReasoningEffort
      if current ≠ "" then
        [{ value := current, label := current ++ " (current)" }]
      else [])
  ++ [{ value := CUSTOM_PICKER_VALUE, label := "Custom…", description := some "Type a reasoning effort value manually." }]

/-- `getReasoningEffortPickerOptions` from `CodexDisplay.tsx`
(lines 293–322). -/
def getReasoningEffortPickerOptions (modelHints : CodexModelHints)
    (draftReasoningEffort : String) : List PickerOption :=
  buildPickerOptions (reasoningEffortPickerCandidates modelHints draftReasoningEffort)

/-! ## Display state machine (`CodexDisplay.tsx`) -/

/-- The `mode` prop: which side currently holds input control. -/
inductive ControlMode where
  | localMode
  | remoteMode
deriving DecidableEq, Repr

/-- The three pickable settings fields. -/
inductive PickerField where
  | model
  | profile
  | reasoningEffort
deriving DecidableEq, Repr

/-- Key flags of an Ink `useInput` event (`ret` stands for the source's
`key.return`). -/
structure KeyInfo where
  ctrl : Bool := false
  meta : Bool := false
  upArrow : Bool := false
  downArrow : Bool := false
  leftArrow : Bool := false
  rightArrow : Bool := false
  escape : Bool := false
  ret : Bool := false
  backspace : Bool := false
  delete : Bool := false
deriving DecidableEq, Repr

/-- One input event: the character payload plus key flags. -/
structure InputEvent where
  input : String := ""
  key : KeyInfo := {}
deriving DecidableEq, Repr

/-- Outcome of the `onUpdateSettings` collaborator: absent handler, success,
or a failure whose display text is the thrown error message (or
`Unknown error` for a non-`Error` throw). -/
inductive UpdateOutcome where
  | absent
  | success
  | failure (msg : String)
deriving DecidableEq, Repr

/-- The component props that the input handler consults.  Optional callback
props are modelled by presence flags; `onUpdateSettings` also carries the
outcome its invocation would produce. -/
structure DisplayProps where
  mode : ControlMode := .remoteMode
  hasOnExit : Bool := false
  hasSwitchToLocal : Bool := false
  hasSwitchToRemote : Bool := false
  hasSubmitPrompt : Bool := false
  updateOutcome : UpdateOutcome := .absent
  settings : CodexSettings := {}
  modelHints : CodexModelHints := {}
deriving DecidableEq, Repr

/-- The mutable `useState` fields of `CodexDisplay` that the input handler
reads or writes.  `confirmationMode` also stands for the pending 15-second
timeout (the code arms and clears the timer exactly when it sets and resets
this flag). -/
structure DisplayState where
  confirmationMode : Bool := false
  actionInProgress : Bool := false
  actionLabel : Option String := none
  settingsOpen : Bool := false
  settingsSelection : Nat := 0
  activePicker : Option PickerField := none
  pickerSelection : Nat := 0
  editingField : Option PickerField := none
  draftPermissionMode : PermissionMode := .default
  draftModel : String := ""
  draftProfile : String := ""
  draftReasoningEffort : String := ""
  draftTextInput : String := ""
  promptDraft : String := ""
  promptCursor : Nat := 0
  promptHistory : List String := []
  promptHistoryIndex : Option Nat := none
  promptBeforeHistory : String := ""
deriving DecidableEq, Repr

/-- Externally observable calls the handler makes, in order. -/
inductive Effect where
  | switchToLocal
  | switchToRemote
  | exitApp
  | submitPrompt (prompt : String)
  | updateSettings (settings : CodexSettings)
  | addMessage (content : String) (msgType : String)
deriving DecidableEq, Repr

/-- `resetConfirmation` (`CodexDisplay.tsx` lines 203–209): clear the flag
and cancel the pending timeout. -/
def resetConfirmation (s : DisplayState) : DisplayState :=
  { s with confirmationMode := false }

/-- `setConfirmationWithTimeout` (`CodexDisplay.tsx` lines 211–219): arm the
flag and (re)start the 15-second auto-disarm timer. -/
def setConfirmationWithTimeout (s : DisplayState) : DisplayState :=
  { s with confirmationMode := true }

/-- `updatePrompt` (`CodexDisplay.tsx` lines 158–162): set the draft and
clamp the cursor into `[0, next.length]`; a `none` cursor means the end of
the new text. -/
def updatePrompt (s : DisplayState) (next : String) (nextCursor : Option Int) :
    DisplayState :=
  let cursor : Int := match nextCursor with
    | some c => c
    | none => next.length
  { s with
    promptDraft := next
    promptCursor := (max 0 (min cursor (next.length : Int))).toNat }

/-- `insertPromptText` (`CodexDisplay.tsx` lines 164–169). -/
def insertPromptText (s : DisplayState) (text : String) : DisplayState :=
  if text = "" then s
  else
    let before := strTake s.promptDraft s.promptCursor
    let after := strDrop s.promptDraft s.promptCursor
    updatePrompt s (before ++ text ++ after) (some ((s.promptCursor : Int) + text.length))

/-- `deletePromptBackward` (`CodexDisplay.tsx` lines 171–176). -/
def deletePromptBackward (s : DisplayState) : DisplayState :=
  if s.promptCursor ≤ 0 then s
  else
    let before := strTake s.promptDraft (s.promptCursor - 1)
    let after := strDrop s.promptDraft s.promptCursor
    updatePrompt s (before ++ after) (some ((s.promptCursor : Int) - 1))

/-- `deletePromptForward` (`CodexDisplay.tsx` lines 178–183). -/
def deletePromptForward (s : DisplayState) : DisplayState :=
  if s.promptCursor ≥ s.promptDraft.length then s
  else
    let before := strTake s.promptDraft s.promptCursor
    let after := strDrop s.promptDraft (s.promptCursor + 1)
    updatePrompt s (before ++ after) (some (s.promptCursor : Int))

/-- `movePromptCursor` (`CodexDisplay.tsx` lines 185–187). -/
def movePromptCursor (s : DisplayState) (delta : Int) : DisplayState :=
  updatePrompt s s.promptDraft (some ((s.promptCursor : Int) + delta))

/-- `pushPromptHistory` (`CodexDisplay.tsx` lines 192–201): append the
trimmed entry unless blank or equal to the previous entry, keeping at most
the last 50 entries (`prev.slice(-49)` plus the new one). -/
def pushPromptHistory (s : DisplayState) (entry : String) : DisplayState :=
  let trimmed := jsTrim entry
  if trimmed = "" then s
  else if s.promptHistory ≠ [] ∧ s.promptHistory.getLast? = some trimmed then s
  else
    { s with promptHistory :=
        s.promptHistory.drop (s.promptHistory.length - 49) ++ [trimmed] }

/-- `openSettings` (`CodexDisplay.tsx` lines 105–117): seed the draft from
the given base settings (committed settings or `{}`) and reset all
picker/edit sub-state. -/
def openSettings (s : DisplayState) (base : CodexSettings) : DisplayState :=
  { s with
    draftPermissionMode := base.permissionMode.getD .default
    draftModel := base.model.getD ""
    draftReasoningEffort := base.reasoningEffort.getD ""
    draftProfile := base.profile.getD ""
    draftTextInput := ""
    editingField := none
    activePicker := none
    pickerSelection := 0
    settingsSelection := 0
    settingsOpen := true }

/-- `closeSettings` (`CodexDisplay.tsx` lines 119–124). -/
def closeSettings (s : DisplayState) : DisplayState :=
  { s with
    settingsOpen := false
    editingField := none
    activePicker := none
    draftTextInput := "" }

/-- The fixed `permissionModeOptions` values (`CodexDisplay.tsx`
lines 73–94). -/
def permissionModeOptionValues : List PermissionMode :=
  [.default, .readOnly, .safeYolo, .yolo]

/-- `cyclePermissionMode` (`CodexDisplay.tsx` lines 221–225): step to the
next of the four permission modes, cyclically. -/
def cyclePermissionMode (s : DisplayState) : DisplayState :=
  let index := permissionModeOptionValues.findIdx (· = s.draftPermissionMode)
  { s with draftPermissionMode :=
      (permissionModeOptionValues.getD ((index + 1) % permissionModeOptionValues.length)
        .default) }

/-- `normalizeSettings` (`CodexDisplay.tsx` lines 227–232): trim the string
drafts, mapping blank results to absent fields; the permission mode passes
through. -/
def normalizeSettings (s : DisplayState) : CodexSettings :=
  { permissionMode := some s.draftPermissionMode
    model := if jsTrim s.draftModel ≠ "" then some (jsTrim s.draftModel) else none
    reasoningEffort :=
      if jsTrim s.draftReasoningEffort ≠ "" then some (jsTrim s.draftReasoningEffort) else none
    profile := if jsTrim s.draftProfile ≠ "" then some (jsTrim s.draftProfile) else none }

/-- Current draft text of a pickable field. -/
def draftOfField (s : DisplayState) : PickerField → String
  | .model => s.draftModel
  | .profile => s.draftProfile
  | .reasoningEffort => s.draftReasoningEffort

/-- Set the draft text of a pickable field. -/
def setDraftOfField (s : DisplayState) (f : PickerField) (value : String) :
    DisplayState :=
  match f with
  | .model => { s with draftModel := value }
  | .profile => { s with draftProfile := value }
  | .reasoningEffort => { s with draftReasoningEffort := value }

/-- The option list shown for a pickable field, as computed inside the
handler and `openPicker`. -/
def pickerOptionsFor (p : DisplayProps) (s : DisplayState) :
    PickerField → List PickerOption
  | .model => getModelPickerOptions p.modelHints s.draftModel
  | .profile => getProfilePickerOptions p.modelHints s.draftProfile
  | .reasoningEffort => getReasoningEffortPickerOptions p.modelHints s.draftReasoningEffort

/-- `openPicker` (`CodexDisplay.tsx` lines 324–348): select the option whose
value equals the trimmed current draft (else index 0) and activate the
picker. -/
def openPicker (p : DisplayProps) (s : DisplayState) (picker : PickerField) :
    DisplayState :=
  let options := pickerOptionsFor p s picker
  let currentValue := jsTrim (draftOfField s picker)
  let index := options.findIdx? (fun opt => opt.value = currentValue)
  { s with
    pickerSelection := index.getD 0
    activePicker := some picker }

/-- Clear the prompt line and leave history-navigation state, as the source
does with `updatePrompt('', 0); setPromptHistoryIndex(null);
setPromptBeforeHistory('')`. -/
def clearPromptState (s : DisplayState) : DisplayState :=
  { updatePrompt s "" (some 0) with
    promptHistoryIndex := none
    promptBeforeHistory := "" }

/-- The `keys` of `settingsItems` (`CodexDisplay.tsx` lines 96–103), in
order. -/
def settingsItemsKeys : List String :=
  ["permissionMode", "model", "reasoningEffort", "profile", "save", "cancel"]

/-- The local-prompt part of the `useInput` handler (`CodexDisplay.tsx`
lines 376–499), reached when the settings overlay is closed and the mode is
`local`. -/
def handleLocalPromptInput (p : DisplayProps) (s : DisplayState)
    (ev : InputEvent) : DisplayState × List Effect :=
  if ev.key.upArrow = true then
    if s.promptHistory.length = 0 then (s, [])
    else
      match s.promptHistoryIndex with
      | none =>
        let nextIndex := s.promptHistory.length - 1
        let s1 := { s with
          promptBeforeHistory := s.promptDraft
          promptHistoryIndex := some nextIndex }
        (updatePrompt s1 ((s.promptHistory.get? nextIndex).getD "") none, [])
      | some i =>
        if i > 0 then
          let nextIndex := i - 1
          let s1 := { s with promptHistoryIndex := some nextIndex }
          (updatePrompt s1 ((s.promptHistory.get? nextIndex).getD "") none, [])
        else (s, [])
  else if ev.key.downArrow = true then
    if s.promptHistory.length = 0 then (s, [])
    else
      match s.promptHistoryIndex with
      | none => (s, [])
      | some i =>
        if i < s.promptHistory.length - 1 then
          let nextIndex := i + 1
          let s1 := { s with promptHistoryIndex := some nextIndex }
          (updatePrompt s1 ((s.promptHistory.get? nextIndex).getD "") none, [])
        else
          (updatePrompt { s with promptHistoryIndex := none } s.promptBeforeHistory none, [])
  else if ev.key.leftArrow = true then (movePromptCursor s (-1), [])
  else if ev.key.rightArrow = true then (movePromptCursor s 1, [])
  else if ev.key.ctrl = true ∧ ev.input = "a" then
    (updatePrompt s s.promptDraft (some 0), [])
  else if ev.key.ctrl = true ∧ ev.input = "e" then
    (updatePrompt s s.promptDraft (some (s.promptDraft.length : Int)), [])
  else if ev.key.ctrl = true ∧ ev.input = "u" then (clearPromptState s, [])
  else if ev.key.escape = true then (clearPromptState s, [])
  else if ev.key.ret = true then
    let trimmed := jsTrim s.promptDraft
    if trimmed = "" then (clearPromptState s, [])
    else if trimmed = "/settings" ∨ trimmed = "/s" then
      ({ openSettings s p.settings with promptDraft := "" }, [])
    else if trimmed = "/remote" then
      (clearPromptState s, if p.hasSwitchToRemote then [.switchToRemote] else [])
    else if trimmed = "/local" then
      (clearPromptState s, if p.hasSwitchToLocal then [.switchToLocal] else [])
    else if trimmed = "/exit" ∨ trimmed = "/quit" then
      (clearPromptState s, if p.hasOnExit then [.exitApp] else [])
    else
      (clearPromptState (pushPromptHistory s s.promptDraft),
       if p.hasSubmitPrompt then [.submitPrompt s.promptDraft] else [])
  else if ev.key.backspace = true ∨ ev.key.delete = true then
    if ev.key.delete = true ∧ ev.key.backspace = false then
      (deletePromptForward s, [])
    else (deletePromptBackward s, [])
  else if ev.input ≠ "" ∧ ev.key.ctrl = false ∧ ev.key.meta = false then
    (insertPromptText s ev.input, [])
  else if s.confirmationMode = true then (resetConfirmation s, [])
  else (s, [])

/-- The free-text editing part of the settings handler (`CodexDisplay.tsx`
lines 505–532), reached while `editingField` is set. -/
def handleEditingFieldInput (s : DisplayState) (ev : InputEvent)
    (f : PickerField) : DisplayState :=
  if ev.key.escape = true then
    { s with editingField := none, draftTextInput := "" }
  else if ev.key.ret = true then
    { setDraftOfField s f s.draftTextInput with
      editingField := none
      draftTextInput := "" }
  else if ev.key.backspace = true ∨ ev.key.delete = true then
    { s with draftTextInput := strDropRight s.draftTextInput 1 }
  else if ev.input ≠ "" ∧ ev.key.ctrl = false ∧ ev.key.meta = false then
    { s with draftTextInput := s.draftTextInput ++ ev.input }
  else s

/-- The picker part of the settings handler (`CodexDisplay.tsx`
lines 535–583), reached while `activePicker` is set. -/
def handlePickerInput (p : DisplayProps) (s : DisplayState) (ev : InputEvent)
    (f : PickerField) : DisplayState :=
  let options := pickerOptionsFor p s f
  if ev.key.escape = true ∨ ev.input = "s" then { s with activePicker := none }
  else if ev.key.upArrow = true then
    { s with pickerSelection := (s.pickerSelection + options.length - 1) % options.length }
  else if ev.key.downArrow = true then
    { s with pickerSelection := (s.pickerSelection + 1) % options.length }
  else if ev.key.ret = true then
    match options.get? s.pickerSelection with
    | none => { s with activePicker := none }
    | some choice =>
      if choice.value = CUSTOM_PICKER_VALUE then
        { s with
          editingField := some f
          draftTextInput := draftOfField s f
          activePicker := none }
      else
        { setDraftOfField s f choice.value with activePicker := none }
  else s

/-- The settings-navigation part of the handler (`CodexDisplay.tsx`
lines 586–655), reached when the overlay is open with no picker and no
active edit. -/
def handleSettingsNavInput (p : DisplayProps) (s : DisplayState)
    (ev : InputEvent) : DisplayState × List Effect :=
  if ev.key.escape = true ∨ ev.input = "s" then (closeSettings s, [])
  else if ev.key.upArrow = true then
    ({ s with settingsSelection :=
        (s.settingsSelection + settingsItemsKeys.length - 1) % settingsItemsKeys.length }, [])
  else if ev.key.downArrow = true then
    ({ s with settingsSelection := (s.settingsSelection + 1) % settingsItemsKeys.length }, [])
  else if ev.input = "1" ∨ ev.input = "2" ∨ ev.input = "3" ∨ ev.input = "4" then
    let idx := ["1", "2", "3", "4"].findIdx (· = ev.input)
    ({ s with draftPermissionMode := permissionModeOptionValues.getD idx .default }, [])
  else if ev.key.ret = true then
    match settingsItemsKeys.get? s.settingsSelection with
    | some "permissionMode" => (cyclePermissionMode s, [])
    | some "model" => (openPicker p s .model, [])
    | some "reasoningEffort" => (openPicker p s .reasoningEffort, [])
    | some "profile" => (openPicker p s .profile, [])
    | some "cancel" => (closeSettings s, [])
    | some "save" =>
      let next := normalizeSettings s
      match p.updateOutcome with
      | .absent => (closeSettings s, [])
      | .success =>
        (closeSettings { s with actionInProgress := false, actionLabel := none },
         [.updateSettings next, .addMessage "Saved Codex settings." "system"])
      | .failure msg =>
        ({ s with actionInProgress := false, actionLabel := none },
         [.updateSettings next, .addMessage ("Failed to save settings: " ++ msg) "system"])
    | _ => (s, [])
  else (s, [])

/-- The `useInput` handler of `CodexDisplay` (`CodexDisplay.tsx`
lines 350–696): one input event processed to completion, returning the new
state and the collaborator calls made, in order. -/
def handleInput (p : DisplayProps) (s : DisplayState) (ev : InputEvent) :
    DisplayState × List Effect :=
  if s.actionInProgress = true then (s, [])
  else if ev.key.ctrl = true ∧ ev.input = "c" then
    if s.settingsOpen = false ∧ p.mode = .remoteMode ∧ p.hasSwitchToLocal = true then
      (resetConfirmation s, [.switchToLocal])
    else if s.confirmationMode = true then
      ({ resetConfirmation s with actionInProgress := true },
       if p.hasOnExit then [.exitApp] else [])
    else (setConfirmationWithTimeout s, [])
  else if s.settingsOpen = false ∧ p.mode = .localMode then
    handleLocalPromptInput p s ev
  else if s.settingsOpen = true then
    match s.editingField with
    | some f => (handleEditingFieldInput s ev f, [])
    | none =>
      match s.activePicker with
      | some f => (handlePickerInput p s ev f, [])
      | none => handleSettingsNavInput p s ev
  else if ev.input = "s" ∧ p.mode ≠ .localMode then
    (openSettings s p.settings, [])
  else if s.confirmationMode = true then (resetConfirmation s, [])
  else (s, [])

/-! ## Config hint extraction (`codexConfig.ts`) -/

/-- Split a character list at every occurrence of `sep`, keeping empty
segments — the semantics of JavaScript `split` with a one-character
separator. -/
def splitOnCharList (sep : Char) : List Char → List (List Char)
  | [] => [[]]
  | c :: rest =>
    match splitOnCharList sep rest with
    | [] => [[c]]
    | seg :: segs =>
      if c = sep then [] :: seg :: segs else (c :: seg) :: segs

/-- Embedding of `toml.split('\n')`. -/
def splitLines (s : String) : List String :=
  (splitOnCharList (Char.ofNat 10) s.data).map String.mk

/-- `parseQuotedString` from `codexConfig.ts` (lines 86–93): after trimming,
match a fully double- or single-quoted value with a non-empty body that
contains no quote of the same kind. -/
def parseQuotedString (value : String) : Option String :=
  let trimmed := jsTrim value
  if strStartsWith trimmed "\"" ∧ strEndsWith trimmed "\"" ∧ 3 ≤ trimmed.length ∧
      strContains (strDropRight (strDrop trimmed 1) 1) '"' = false then
    some (strDropRight (strDrop trimmed 1) 1)
  else if strStartsWith trimmed "\x27" ∧ strEndsWith trimmed "\x27" ∧ 3 ≤ trimmed.length ∧
      strContains (strDropRight (strDrop trimmed 1) 1) '\x27' = false then
    some (strDropRight (strDrop trimmed 1) 1)
  else none

/-- Match a trimmed line against `^key\s*=\s*(.+)\s*$` as used for `model`
and `model_reasoning_effort`, returning the captured value. -/
def matchKeyAssign (key : String) (t : String) : Option String :=
  if strStartsWith t key then
    let rest := (t.data.drop key.length).dropWhile isJsWhitespace
    match rest with
    | c :: rest2 =>
      if c = '=' then
        let v := rest2.dropWhile isJsWhitespace
        if v = [] then none else some (String.mk v)
      else none
    | [] => none
  else none

/-- The line scan of `extractDefaultModel` / `extractDefaultReasoningEffort`
(`codexConfig.ts` lines 105–129): skip blank and comment lines, stop at the
first section header, and on the first `key = value` line return the parsed
quoted value (or nothing when unquoted). -/
def extractTopLevelKeyLines (key : String) : List String → Option String
  | [] => none
  | line :: rest =>
    let trimmed := jsTrim line
    if trimmed = "" ∨ strStartsWith trimmed "#" then extractTopLevelKeyLines key rest
    else if strStartsWith trimmed "[" then none
    else
      match matchKeyAssign key trimmed with
      | none => extractTopLevelKeyLines key rest
      | some v => parseQuotedString v

/-- `extractDefaultModel` from `codexConfig.ts` (lines 105–116). -/
def extractDefaultModel (toml : String) : Option String :=
  extractTopLevelKeyLines "model" (splitLines toml)

/-- `extractDefaultReasoningEffort` from `codexConfig.ts`
(lines 118–129). -/
def extractDefaultReasoningEffort (toml : String) : Option String :=
  extractTopLevelKeyLines "model_reasoning_effort" (splitLines toml)

/-- Parse one quoted token (`"([^"]+)"` or `'([^']+)'` for quote `q`) at the
head of the character list, returning the body and the remainder. -/
def parseQuotedToken (l : List Char) (q : Char) : Option (String × List Char) :=
  match l with
  | c :: rest =>
    if c = q then
      let content := rest.takeWhile (· ≠ q)
      match rest.drop content.length with
      | c2 :: rest2 =>
        if c2 = q ∧ content ≠ [] then some (String.mk content, rest2) else none
      | [] => none
    else none
  | [] => none

/-- Match a trimmed line against the migration pair regex
`^("([^"]+)"|'([^']+)')\s*=\s*("([^"]+)"|'([^']+)')\s*$`
(`codexConfig.ts` line 144). -/
def parseMigrationLine (t : String) : Option (String × String) :=
  match (parseQuotedToken t.data '"').orElse
      (fun _ => parseQuotedToken t.data '\x27') with
  | none => none
  | some (fromName, rest) =>
    match rest.dropWhile isJsWhitespace with
    | '=' :: rest2 =>
      match (parseQuotedToken (rest2.dropWhile isJsWhitespace) '"').orElse
          (fun _ => parseQuotedToken (rest2.dropWhile isJsWhitespace) '\x27') with
      | some (toName, rest4) =>
        if rest4.dropWhile isJsWhitespace = [] then some (fromName, toName) else none
      | none => none
    | _ => none

/-- The line fold of `extractModelMigrations` (`codexConfig.ts`
lines 131–151).  The record is an association list with the latest binding
first, so lookup sees the last write. -/
def extractModelMigrationsLines :
    List String → Bool → List (String × String) → List (String × String)
  | [], _, migrations => migrations
  | rawLine :: rest, inSection, migrations =>
    let line := jsTrim rawLine
    if line = "" ∨ strStartsWith line "#" then
      extractModelMigrationsLines rest inSection migrations
    else if strStartsWith line "[" then
      extractModelMigrationsLines rest (line = "[notice.model_migrations]") migrations
    else if inSection = false then
      extractModelMigrationsLines rest inSection migrations
    else
      match parseMigrationLine line with
      | none => extractModelMigrationsLines rest inSection migrations
      | some kv => extractModelMigrationsLines rest inSection (kv :: migrations)

/-- `extractModelMigrations` from `codexConfig.ts` (lines 131–151). -/
def extractModelMigrations (toml : String) : List (String × String) :=
  extractModelMigrationsLines (splitLines toml) false []

/-- Lookup in the migration record (`migrations[from]`). -/
def recordLookup (migrations : List (String × String)) (key : String) :
    Option String :=
  (migrations.find? (fun kv => kv.1 = key)).map (fun kv => kv.2)

/-- Match a trimmed line against `^\[(profiles|profile)\.(.+)\]$` and apply
the name extraction of `extractProfiles` (`codexConfig.ts` lines 160–165):
trim the captured part, unquote it when quoted, drop empty names. -/
def profileHeaderName (line : String) : Option String :=
  let inner : Option String :=
    if strStartsWith line "[profiles." ∧ strEndsWith line "]" ∧ 12 ≤ line.length then
      some (strDropRight (strDrop line 10) 1)
    else if strStartsWith line "[profile." ∧ strEndsWith line "]" ∧ 11 ≤ line.length then
      some (strDropRight (strDrop line 9) 1)
    else none
  match inner with
  | none => none
  | some rawMiddle =>
    let rawName := jsTrim rawMiddle
    let name := (parseQuotedString rawName).getD rawName
    if name = "" then none else some name

/-- `profiles.add(name)` on the insertion-ordered set, modelled as a
duplicate-free list. -/
def setInsert (l : List String) (x : String) : List String :=
  if x ∈ l then l else l ++ [x]

/-- One line of the `extractProfiles` scan (`codexConfig.ts`
lines 156–166): skip blank and comment lines, add the header's profile
name to the set otherwise. -/
def declaredProfilesStep (profiles : List String) (rawLine : String) : List String :=
  if jsTrim rawLine = "" ∨ strStartsWith (jsTrim rawLine) "#" then profiles
  else
    match profileHeaderName (jsTrim rawLine) with
    | none => profiles
    | some name => setInsert profiles name

/-- The names collected by `extractProfiles` in insertion order, before
sorting (`codexConfig.ts` lines 153–166). -/
def declaredProfiles (toml : String) : List String :=
  (splitLines toml).foldl declaredProfilesStep []

/-- Lexicographic comparison of character lists by code point: a concrete
total order on strings, used below as an example of a consistent,
antisymmetric sort comparator. -/
def charListLe : List Char → List Char → Bool
  | [], _ => true
  | _ :: _, [] => false
  | a :: as, b :: bs =>
    if a.toNat < b.toNat then true
    else if b.toNat < a.toNat then false
    else charListLe as bs

/-- Code-point order on strings (a total order; one admissible
instantiation of the abstract comparator below). -/
def stringLe (a b : String) : Bool :=
  charListLe a.data b.data

/-- Code-point order after deleting soft hyphens (U+00AD).  ICU default
collation treats the soft hyphen as ignorable, so Node's
`'ab'.localeCompare('a\u00ADb')` is `0` although the strings differ; this
comparator is consistent (total and transitive, see the lemmas below) and
has the same kind of tie between distinct strings. -/
def ignoringSoftHyphenLe (a b : String) : Bool :=
  charListLe (a.data.filter (fun c => c.toNat ≠ 0xAD))
    (b.data.filter (fun c => c.toNat ≠ 0xAD))

/-- `extractProfiles` from `codexConfig.ts` (lines 153–168): the collected
set sorted with `a.localeCompare(b)`.  The locale collation lives in the
platform (ICU), outside this repository, so the comparator is a parameter:
`le a b` models `a.localeCompare(b) <= 0`.  `Array.prototype.sort` is a
stable sort (ES2019), modelled by stable insertion sort. -/
def extractProfiles (le : String → String → Bool) (toml : String) : List String :=
  (declaredProfiles toml).insertionSort (fun a b => le a b = true)

/-- `readCodexModelHints` from `codexConfig.ts` (lines 170–181).  The config
file content stands in for `readCodexConfigToml()`: `none` models a missing
or unreadable `config.toml` (the `catch` branch); `le` is the abstract
`localeCompare` comparator passed down to `extractProfiles`. -/
def readCodexModelHints (le : String → String → Bool)
    (configToml : Option String) : CodexModelHints :=
  match configToml with
  | none => {}
  | some toml =>
    let defaultModel := extractDefaultModel toml
    let defaultReasoningEffort := extractDefaultReasoningEffort toml
    let migrations := extractModelMigrations toml
    let migratedModel :=
      match defaultModel with
      | some dm => recordLookup migrations dm
      | none => none
    { defaultModel := defaultModel
      migratedModel := migratedModel
      defaultReasoningEffort := defaultReasoningEffort
      profiles := some (extractProfiles le toml) }

/-! ## Helper lemmas -/

theorem dropWhile_idem {α : Type} (p : α → Bool) (l : List α) :
    (l.dropWhile p).dropWhile p = l.dropWhile p := by
  induction l with
  | nil => rfl
  | cons a t ih =>
    cases hpa : p a with
    | true => simp [List.dropWhile_cons, hpa, ih]
    | false => simp [List.dropWhile_cons, hpa]

theorem dropWhile_eq_self_head {α : Type} (p : α → Bool) (a : α) (t : List α)
    (h : (a :: t).dropWhile p = a :: t) : p a = false := by
  cases hpa : p a with
  | false => rfl
  | true =>
    have h2 : t.dropWhile p = a :: t := by
      simpa [List.dropWhile_cons, hpa] using h
    have hle : (t.dropWhile p).length ≤ t.length :=
      (List.IsSuffix.sublist (List.dropWhile_suffix p)).length_le
    rw [h2] at hle
    simp at hle

theorem dropWhile_eq_self_of_prefix {α : Type} (p : α → Bool) (x : List α)
    (h : x.dropWhile p = x) (y : List α) (hy : y <+: x) :
    y.dropWhile p = y := by
  cases y with
  | nil => rfl
  | cons a t =>
    obtain ⟨r, hr⟩ := hy
    have hx : x = a :: (t ++ r) := by rw [← hr]; rfl
    rw [hx] at h
    have hpa : p a = false := dropWhile_eq_self_head p a (t ++ r) h
    simp [List.dropWhile_cons, hpa]

theorem reverse_dropWhile_reverse_front {α : Type} (p : α → Bool) (m : List α) :
    (m.reverse.dropWhile p).reverse <+: m := by
  have h2 := List.reverse_prefix.mpr (List.dropWhile_suffix (l := m.reverse) p)
  simpa using h2

theorem jsTrimList_idem (l : List Char) :
    jsTrimList (jsTrimList l) = jsTrimList l := by
  unfold jsTrimList
  have h1 : (l.dropWhile isJsWhitespace).dropWhile isJsWhitespace
      = l.dropWhile isJsWhitespace := dropWhile_idem _ _
  have h2 : (((l.dropWhile isJsWhitespace).reverse.dropWhile isJsWhitespace).reverse).dropWhile
        isJsWhitespace
      = ((l.dropWhile isJsWhitespace).reverse.dropWhile isJsWhitespace).reverse :=
    dropWhile_eq_self_of_prefix _ _ h1 _ (reverse_dropWhile_reverse_front _ _)
  rw [h2, List.reverse_reverse, dropWhile_idem]

theorem jsTrim_idem (s : String) : jsTrim (jsTrim s) = jsTrim s := by
  unfold jsTrim
  exact congrArg String.mk (jsTrimList_idem s.data)

theorem jsTrim_empty : jsTrim "" = "" := rfl

theorem pushUnique_of_mem {acc : List PickerOption × List String}
    {c : PickerOption} (hc : c.value ∈ acc.2) : pushUnique acc c = acc := by
  unfold pushUnique
  exact if_pos hc

theorem pushUnique_of_not_mem {acc : List PickerOption × List String}
    {c : PickerOption} (hc : c.value ∉ acc.2) :
    pushUnique acc c = (acc.1 ++ [c], acc.2 ++ [c.value]) := by
  unfold pushUnique
  exact if_neg hc

theorem foldl_pushUnique_seen_eq (cands : List PickerOption) :
    ∀ acc : List PickerOption × List String,
      acc.2 = acc.1.map PickerOption.value →
      (cands.foldl pushUnique acc).2 = (cands.foldl pushUnique acc).1.map PickerOption.value := by
  induction cands with
  | nil => intro acc h; exact h
  | cons c cs ih =>
    intro acc h
    rw [List.foldl_cons]
    by_cases hc : c.value ∈ acc.2
    · rw [pushUnique_of_mem hc]; exact ih acc h
    · rw [pushUnique_of_not_mem hc]
      apply ih
      simp [h]

theorem foldl_pushUnique_nodup (cands : List PickerOption) :
    ∀ acc : List PickerOption × List String,
      acc.2.Nodup → (cands.foldl pushUnique acc).2.Nodup := by
  induction cands with
  | nil => intro acc hn; exact hn
  | cons c cs ih =>
    intro acc hn
    rw [List.foldl_cons]
    by_cases hc : c.value ∈ acc.2
    · rw [pushUnique_of_mem hc]; exact ih acc hn
    · rw [pushUnique_of_not_mem hc]
      apply ih
      simp [List.nodup_append, hn, hc]

theorem buildPickerOptions_values_nodup (cands : List PickerOption) :
    ((buildPickerOptions cands).map PickerOption.value).Nodup := by
  unfold buildPickerOptions
  have h := foldl_pushUnique_seen_eq cands ([], []) rfl
  have hn := foldl_pushUnique_nodup cands ([], []) List.nodup_nil
  rw [h] at hn
  exact hn

theorem foldl_pushUnique_front (cands : List PickerOption) :
    ∀ acc : List PickerOption × List String,
      acc.1 <+: (cands.foldl pushUnique acc).1 := by
  induction cands with
  | nil => intro acc; exact List.prefix_refl _
  | cons c cs ih =>
    intro acc
    rw [List.foldl_cons]
    by_cases hc : c.value ∈ acc.2
    · rw [pushUnique_of_mem hc]; exact ih acc
    · rw [pushUnique_of_not_mem hc]
      exact List.IsPrefix.trans (List.prefix_append _ _)
        (ih (acc.1 ++ [c], acc.2 ++ [c.value]))

theorem buildPickerOptions_head (c : PickerOption) (cs : List PickerOption) :
    (buildPickerOptions (c :: cs)).head? = some c := by
  unfold buildPickerOptions
  have hstep : (c :: cs).foldl pushUnique ([], [])
      = cs.foldl pushUnique ([c], [c.value]) := by
    rw [List.foldl_cons, pushUnique_of_not_mem (by simp)]
    rfl
  rw [hstep]
  obtain ⟨t, ht⟩ := foldl_pushUnique_front cs ([c], [c.value])
  rw [← ht]
  rfl

theorem foldl_pushUnique_seen_subset (cands : List PickerOption) :
    ∀ (acc : List PickerOption × List String) (x : String),
      x ∈ (cands.foldl pushUnique acc).2 →
      x ∈ acc.2 ∨ x ∈ cands.map PickerOption.value := by
  induction cands with
  | nil => intro acc x hx; exact Or.inl hx
  | cons c cs ih =>
    intro acc x hx
    rw [List.foldl_cons] at hx
    by_cases hc : c.value ∈ acc.2
    · rw [pushUnique_of_mem hc] at hx
      rcases ih acc x hx with h | h
      · exact Or.inl h
      · right; simp [h]
    · rw [pushUnique_of_not_mem hc] at hx
      rcases ih _ x hx with h | h
      · rcases List.mem_append.mp h with h1 | h1
        · exact Or.inl h1
        · right; simp at h1; simp [h1]
      · right; simp [h]

theorem buildPickerOptions_getLast (pre : List PickerOption) (custom : PickerOption)
    (h : custom.value ∉ pre.map PickerOption.value) :
    (buildPickerOptions (pre ++ [custom])).getLast? = some custom := by
  unfold buildPickerOptions
  rw [List.foldl_append]
  have hnotin : custom.value ∉ (pre.foldl pushUnique ([], [])).2 := by
    intro hmem
    rcases foldl_pushUnique_seen_subset pre ([], []) custom.value hmem with h1 | h1
    · simp at h1
    · exact h h1
  have hone : List.foldl pushUnique (pre.foldl pushUnique ([], [])) [custom]
      = pushUnique (pre.foldl pushUnique ([], [])) custom := rfl
  rw [hone, pushUnique_of_not_mem hnotin]
  exact List.getLast?_concat _

/-! ## C1: approval decision mapping -/

/-- C1: `codexActionForDecision` maps `approved` and `approved_for_session`
to `accept`, `denied` to `decline`, and `abort` to `cancel`; the mapping is
total (every decision yields exactly one of the three actions), and
`codexElicitationResponseForDecision` returns both the mapped action and
the original decision unchanged, so the two accept-producing decisions stay
distinguishable in the response. -/
theorem codexActionForDecision_spec :
    codexActionForDecision .approved = .accept ∧
    codexActionForDecision .approved_for_session = .accept ∧
    codexActionForDecision .denied = .decline ∧
    codexActionForDecision .abort = .cancel ∧
    (∀ d, codexActionForDecision d = .accept ∨
          codexActionForDecision d = .decline ∨
          codexActionForDecision d = .cancel) ∧
    (∀ d, (codexElicitationResponseForDecision d).action = codexActionForDecision d ∧
          (codexElicitationResponseForDecision d).decision = d) ∧
    codexElicitationResponseForDecision .approved ≠
      codexElicitationResponseForDecision .approved_for_session := by
  refine ⟨rfl, rfl, rfl, rfl, ?_, ?_, by decide⟩
  · intro d; cases d <;> simp [codexActionForDecision]
  · intro d; exact ⟨rfl, rfl⟩

/-! ## C2: loose elicitation schema -/

/-- C2 counterexample: a request whose `params` carry `message` but no
`requestedSchema` at all is accepted by the schema (because
`requestedSchema` is `z.any().optional()`), so validation does not require
both structural fields to be present. -/
theorem codexElicitation_accepts_missing_requestedSchema :
    codexElicitationCreateRequestParse
        (.obj [("method", .str "elicitation/create"),
               ("params", .obj [("message", .str "Allow Codex to run something?")])])
      = some (.obj [("method", .str "elicitation/create"),
               ("params", .obj [("message", .str "Allow Codex to run something?")])]) := by
  rfl

/-- C2 (amended): whenever the schema accepts a request, the request is an
object whose `method` is the literal `elicitation/create` and whose
`params` object carries a string `message` and passes the per-field checks
on the declared `codex_*` fields; `requestedSchema` is unconstrained and
may be absent.  The parsed result is the input verbatim, so every
vendor-prefixed or unknown field survives unchanged. -/
theorem codexElicitation_parse_verbatim (j r : Json)
    (h : codexElicitationCreateRequestParse j = some r) :
    r = j ∧
    ∃ fields ps msg,
      j = .obj fields ∧
      jlookup fields "method" = some (.str "elicitation/create") ∧
      jlookup fields "params" = some (.obj ps) ∧
      jlookup ps "message" = some (.str msg) ∧
      codexElicitationParamsOk ps = true := by
  cases j with
  | null => simp [codexElicitationCreateRequestParse] at h
  | bool b => simp [codexElicitationCreateRequestParse] at h
  | num n => simp [codexElicitationCreateRequestParse] at h
  | str s => simp [codexElicitationCreateRequestParse] at h
  | arr items => simp [codexElicitationCreateRequestParse] at h
  | obj fields =>
    simp only [codexElicitationCreateRequestParse] at h
    split at h
    · rename_i m ps heq1 heq2
      split at h
      · rename_i hcond
        rw [Bool.and_eq_true] at hcond
        have hm : m = "elicitation/create" := of_decide_eq_true hcond.1
        have hok : codexElicitationParamsOk ps = true := hcond.2
        have hr : r = Json.obj fields := (Option.some.inj h).symm
        have hmsg0 : (match jlookup ps "message" with
            | some (.str _) => true
            | _ => false) = true := by
          have h2 := hok
          unfold codexElicitationParamsOk at h2
          simp only [Bool.and_eq_true] at h2
          exact h2.1.1.1.1.1.1.1
        cases hmsgl : jlookup ps "message" with
        | none => rw [hmsgl] at hmsg0; simp at hmsg0
        | some mv =>
          cases mv with
          | str msg =>
            subst hm
            exact ⟨hr, fields, ps, msg, rfl, heq1, heq2, hmsgl, hok⟩
          | null => rw [hmsgl] at hmsg0; simp at hmsg0
          | bool b => rw [hmsgl] at hmsg0; simp at hmsg0
          | num n => rw [hmsgl] at hmsg0; simp at hmsg0
          | arr a => rw [hmsgl] at hmsg0; simp at hmsg0
          | obj o => rw [hmsgl] at hmsg0; simp at hmsg0
      · simp at h
    · simp at h

/-- Witness for C2: the exec-approval request with `codex_command`,
`codex_call_id` and `codex_cwd` vendor fields is accepted and round-trips
verbatim. -/
theorem codexElicitation_parse_verbatim_witness :
    (Json.obj [("method", Json.str "elicitation/create"),
       ("params", Json.obj [("message", Json.str "Allow Codex to run something?"),
         ("codex_command", Json.arr [Json.str "/bin/sh", Json.str "-c", Json.str "echo hi"]),
         ("codex_call_id", Json.str "call_123"),
         ("codex_cwd", Json.str "/tmp")])])
      = (Json.obj [("method", Json.str "elicitation/create"),
       ("params", Json.obj [("message", Json.str "Allow Codex to run something?"),
         ("codex_command", Json.arr [Json.str "/bin/sh", Json.str "-c", Json.str "echo hi"]),
         ("codex_call_id", Json.str "call_123"),
         ("codex_cwd", Json.str "/tmp")])]) ∧
    ∃ fields ps msg,
      (Json.obj [("method", Json.str "elicitation/create"),
       ("params", Json.obj [("message", Json.str "Allow Codex to run something?"),
         ("codex_command", Json.arr [Json.str "/bin/sh", Json.str "-c", Json.str "echo hi"]),
         ("codex_call_id", Json.str "call_123"),
         ("codex_cwd", Json.str "/tmp")])]) = .obj fields ∧
      jlookup fields "method" = some (.str "elicitation/create") ∧
      jlookup fields "params" = some (.obj ps) ∧
      jlookup ps "message" = some (.str msg) ∧
      codexElicitationParamsOk ps = true :=
  codexElicitation_parse_verbatim _ _ (by rfl)

/-! ## C3: exit-confirmation disarm -/

/-- C3 counterexample: with the confirmation armed in local mode, a plain
printable key (here `a`, not an interrupt: `ctrl` is false) is consumed by
the prompt editor and leaves the confirmation armed, contradicting the
claim that every non-repeat input disarms it in both modes. -/
theorem confirmation_survives_local_printable :
    ((handleInput { mode := .localMode } { confirmationMode := true }
        { input := "a" }).1.confirmationMode = true) ∧
    ({ input := "a" : InputEvent }.key.ctrl = false) := by
  exact ⟨rfl, rfl⟩

/-- C3 (amended): the immediate disarm happens only for inputs the handler
does not otherwise consume.  In remote mode with the settings overlay
closed, any input other than Ctrl-C and the settings key `s` disarms the
armed confirmation immediately; inputs consumed by the local prompt editor
or by the settings overlay leave it armed (see the counterexample), and the
15-second timer firing also disarms it. -/
theorem confirmation_disarmed_remote_fallthrough (p : DisplayProps)
    (s : DisplayState) (ev : InputEvent)
    (hmode : p.mode = .remoteMode)
    (hact : s.actionInProgress = false)
    (hset : s.settingsOpen = false)
    (harm : s.confirmationMode = true)
    (hnotc : ¬(ev.key.ctrl = true ∧ ev.input = "c"))
    (hnots : ev.input ≠ "s") :
    (handleInput p s ev).1.confirmationMode = false := by
  simp [handleInput, hmode, hact, hset, harm, hnots, hnotc, resetConfirmation]

/-- Witness for C3 (amended): a concrete `x` key in remote mode disarms an
armed confirmation. -/
theorem confirmation_disarmed_remote_fallthrough_witness :
    (handleInput { mode := .remoteMode } { confirmationMode := true }
        { input := "x" }).1.confirmationMode = false :=
  confirmation_disarmed_remote_fallthrough _ _ _ rfl rfl rfl rfl
    (by simp) (by simp)

/-! ## C4: Ctrl-C handoff from remote -/

/-- C4 counterexample: in remote mode with a switch-to-local handler
registered but the settings overlay open, Ctrl-C does not perform the
handoff (no effect is emitted) and instead arms the exit confirmation. -/
theorem ctrlC_arms_confirmation_when_settings_open :
    handleInput { mode := .remoteMode, hasSwitchToLocal := true }
        { settingsOpen := true }
        { input := "c", key := { ctrl := true } }
      = ({ settingsOpen := true, confirmationMode := true }, []) := by
  rfl

/-- C4 (amended): in remote mode with a switch-to-local handler registered,
Ctrl-C performs the handoff and resets any pending exit confirmation —
provided the settings overlay is closed and no action is in progress; it
emits exactly the switch-to-local call and never arms or completes the exit
confirmation. -/
theorem ctrlC_remote_handoff (p : DisplayProps) (s : DisplayState)
    (hmode : p.mode = .remoteMode) (hswitch : p.hasSwitchToLocal = true)
    (hset : s.settingsOpen = false) (hact : s.actionInProgress = false) :
    handleInput p s { input := "c", key := { ctrl := true } }
      = (resetConfirmation s, [Effect.switchToLocal]) ∧
    (handleInput p s { input := "c", key := { ctrl := true } }).1.confirmationMode
      = false := by
  have h1 : handleInput p s { input := "c", key := { ctrl := true } }
      = (resetConfirmation s, [Effect.switchToLocal]) := by
    simp [handleInput, hmode, hswitch, hset, hact]
  exact ⟨h1, by rw [h1]; rfl⟩

/-- Witness for C4 (amended): concrete remote state with an armed
confirmation; Ctrl-C switches to local and disarms. -/
theorem ctrlC_remote_handoff_witness :
    handleInput { mode := .remoteMode, hasSwitchToLocal := true }
        { confirmationMode := true } { input := "c", key := { ctrl := true } }
      = (resetConfirmation { confirmationMode := true }, [Effect.switchToLocal]) ∧
    (handleInput { mode := .remoteMode, hasSwitchToLocal := true }
        { confirmationMode := true }
        { input := "c", key := { ctrl := true } }).1.confirmationMode = false :=
  ctrlC_remote_handoff _ _ rfl rfl rfl rfl

/-! ## C5: model picker option order -/

/-- C5: the model picker list begins with the `(default)` entry (for every
hint set and draft), then the migration-suggested model, then the reported
default model, then the current draft labelled `(current)` when not already
present; with hints `{defaultModel := "gpt", migratedModel := "gpt2"}` and
an empty draft it is exactly `["(default)", "gpt2", "gpt", "Custom…"]`, in
that order, with no duplicate values. -/
theorem getModelPickerOptions_spec :
    getModelPickerOptions { defaultModel := some "gpt", migratedModel := some "gpt2" } ""
      = [{ value := "", label := "(default)", description := some "Uses Codex default (gpt)." },
         { value := "gpt2", label := "gpt2",
           description := some "Suggested by Codex migration notices." },
         { value := "gpt", label := "gpt", description := some "Current Codex default model." },
         { value := "__custom__", label := "Custom…",
           description := some "Type a model name manually." }] ∧
    ((getModelPickerOptions { defaultModel := some "gpt", migratedModel := some "gpt2" } "").map
        PickerOption.label = ["(default)", "gpt2", "gpt", "Custom…"]) ∧
    ((getModelPickerOptions { defaultModel := some "gpt", migratedModel := some "gpt2" } "").map
        PickerOption.value).Nodup ∧
    (∀ hints draft, (getModelPickerOptions hints draft).head? = some
      { value := "", label := "(default)",
        description := some (match hints.defaultModel with
          | some d => "Uses Codex default (" ++ d ++ ")."
          | none => "Uses Codex default.") }) := by
  refine ⟨by rfl, by rfl, by decide, ?_⟩
  intro hints draft
  unfold getModelPickerOptions modelPickerCandidates
  exact buildPickerOptions_head _ _

/-! ## C6: dedup and the custom sentinel -/

/-- C6 counterexample: when a hint value collides with the sentinel's
internal value `__custom__`, the sentinel entry is deduplicated away and
the list does not end with the custom option: with profiles
`["__custom__", "zzz"]` the profile picker ends with the `zzz` entry. -/
theorem profilePicker_collision_breaks_sentinel :
    (getProfilePickerOptions { profiles := some ["__custom__", "zzz"] } "").getLast?
      = some { value := "zzz", label := "zzz", description := none } ∧
    ((getProfilePickerOptions { profiles := some ["__custom__", "zzz"] } "").getLast?).map
        PickerOption.value ≠ some CUSTOM_PICKER_VALUE := by
  exact ⟨rfl, by decide⟩

/-- C6 (amended): for every hint set and draft, each of the three candidate
lists contains no two entries with the same value; and the list ends with
the sentinel custom entry provided no hint or trimmed draft value equals
the sentinel's internal value `__custom__` (a collision deduplicates the
sentinel away, see the counterexample). -/
theorem pickerOptions_dedup_and_sentinel :
    (∀ hints d, ((getModelPickerOptions hints d).map PickerOption.value).Nodup) ∧
    (∀ hints d, ((getProfilePickerOptions hints d).map PickerOption.value).Nodup) ∧
    (∀ hints d, ((getReasoningEffortPickerOptions hints d).map PickerOption.value).Nodup) ∧
    (∀ hints d, hints.defaultModel ≠ some CUSTOM_PICKER_VALUE →
      hints.migratedModel ≠ some CUSTOM_PICKER_VALUE → jsTrim d ≠ CUSTOM_PICKER_VALUE →
      (getModelPickerOptions hints d).getLast?
        = some { value := CUSTOM_PICKER_VALUE, label := "Custom…",
                 description := some "Type a model name manually." }) ∧
    (∀ hints d, CUSTOM_PICKER_VALUE ∉ hints.profiles.getD [] →
      jsTrim d ≠ CUSTOM_PICKER_VALUE →
      (getProfilePickerOptions hints d).getLast?
        = some { value := CUSTOM_PICKER_VALUE, label := "Custom…",
                 description := some "Type a profile name manually." }) ∧
    (∀ hints d, hints.defaultReasoningEffort ≠ some CUSTOM_PICKER_VALUE →
      jsTrim d ≠ CUSTOM_PICKER_VALUE →
      (getReasoningEffortPickerOptions hints d).getLast?
        = some { value := CUSTOM_PICKER_VALUE, label := "Custom…",
                 description := some "Type a reasoning effort value manually." }) := by
  refine ⟨?_, ?_, ?_, ?_, ?_, ?_⟩
  · intro hints d; exact buildPickerOptions_values_nodup _
  · intro hints d; exact buildPickerOptions_values_nodup _
  · intro hints d; exact buildPickerOptions_values_nodup _
  · intro hints d h1 h2 h3
    unfold getModelPickerOptions modelPickerCandidates
    apply buildPickerOptions_getLast
    rcases hints with ⟨dm, mm, dre, prof⟩
    cases dm <;> cases mm <;> by_cases hd : jsTrim d = "" <;>
      simp_all [CUSTOM_PICKER_VALUE, eq_comm] <;> (rw [← hd]; decide)
  · intro hints d h1 h2
    unfold getProfilePickerOptions profilePickerCandidates
    apply buildPickerOptions_getLast
    rcases hints with ⟨dm, mm, dre, prof⟩
    by_cases hd : jsTrim d = "" <;>
      (simp_all [CUSTOM_PICKER_VALUE, eq_comm] <;> (rw [← hd]; decide))
  · intro hints d h1 h2
    unfold getReasoningEffortPickerOptions reasoningEffortPickerCandidates
    apply buildPickerOptions_getLast
    rcases hints with ⟨dm, mm, dre, prof⟩
    cases dre <;> by_cases hd : jsTrim d = "" <;> simp_all [CUSTOM_PICKER_VALUE, eq_comm] <;> (rw [← hd]; decide)

/-- Witness for C6 (amended): concrete collision-free hint sets where each
picker list ends with the custom sentinel. -/
theorem pickerOptions_dedup_and_sentinel_witness :
    (getModelPickerOptions { defaultModel := some "gpt" } "").getLast?
      = some { value := CUSTOM_PICKER_VALUE, label := "Custom…",
               description := some "Type a model name manually." } ∧
    (getProfilePickerOptions { profiles := some ["p1"] } "").getLast?
      = some { value := CUSTOM_PICKER_VALUE, label := "Custom…",
               description := some "Type a profile name manually." } ∧
    (getReasoningEffortPickerOptions { defaultReasoningEffort := some "high" } "").getLast?
      = some { value := CUSTOM_PICKER_VALUE, label := "Custom…",
               description := some "Type a reasoning effort value manually." } :=
  ⟨pickerOptions_dedup_and_sentinel.2.2.2.1 _ _ (by decide) (by decide) (by decide),
   pickerOptions_dedup_and_sentinel.2.2.2.2.1 _ _ (by decide) (by decide),
   pickerOptions_dedup_and_sentinel.2.2.2.2.2 _ _ (by decide) (by decide)⟩

/-! ## C7: settings normalization round-trip -/

theorem normalizeField_idem (x : String) :
    (if jsTrim ((if jsTrim x ≠ "" then some (jsTrim x) else none).getD "") ≠ ""
      then some (jsTrim ((if jsTrim x ≠ "" then some (jsTrim x) else none).getD ""))
      else none)
    = (if jsTrim x ≠ "" then some (jsTrim x) else none) := by
  by_cases h : jsTrim x = ""
  · simp [h, jsTrim_empty]
  · simp [h, jsTrim_idem]

/-- C7: `normalizeSettings` trims the three string drafts and omits a field
whose trimmed value is blank; the permission mode passes through unchanged
(always one of the four fixed values); and re-seeding a draft from the
normalized result (as `openSettings` does) and normalizing again yields the
same committed candidate. -/
theorem normalizeSettings_roundtrip (s : DisplayState) :
    normalizeSettings (openSettings s (normalizeSettings s)) = normalizeSettings s ∧
    (normalizeSettings s).permissionMode = some s.draftPermissionMode ∧
    ((normalizeSettings s).model = none ↔ jsTrim s.draftModel = "") ∧
    ((normalizeSettings s).profile = none ↔ jsTrim s.draftProfile = "") ∧
    ((normalizeSettings s).reasoningEffort = none ↔ jsTrim s.draftReasoningEffort = "") := by
  refine ⟨?_, rfl, ?_, ?_, ?_⟩
  · simp only [normalizeSettings, openSettings, CodexSettings.mk.injEq]
    refine ⟨?_, ?_, ?_, ?_⟩
    · exact normalizeField_idem s.draftModel
    · simp
    · exact normalizeField_idem s.draftProfile
    · exact normalizeField_idem s.draftReasoningEffort
  · by_cases h : jsTrim s.draftModel = "" <;> simp [normalizeSettings, h]
  · by_cases h : jsTrim s.draftProfile = "" <;> simp [normalizeSettings, h]
  · by_cases h : jsTrim s.draftReasoningEffort = "" <;> simp [normalizeSettings, h]

/-- Witness for C7 at a concrete draft. -/
theorem normalizeSettings_roundtrip_witness :
    normalizeSettings (openSettings { draftModel := " m " }
        (normalizeSettings { draftModel := " m " }))
      = normalizeSettings { draftModel := " m " } ∧
    (normalizeSettings { draftModel := " m " }).permissionMode
      = some ({ draftModel := " m " } : DisplayState).draftPermissionMode ∧
    ((normalizeSettings { draftModel := " m " }).model = none ↔
      jsTrim ({ draftModel := " m " } : DisplayState).draftModel = "") ∧
    ((normalizeSettings { draftModel := " m " }).profile = none ↔
      jsTrim ({ draftModel := " m " } : DisplayState).draftProfile = "") ∧
    ((normalizeSettings { draftModel := " m " }).reasoningEffort = none ↔
      jsTrim ({ draftModel := " m " } : DisplayState).draftReasoningEffort = "") :=
  normalizeSettings_roundtrip _

/-! ## C8: prompt cursor bound and the `/settings` branch -/

/-- C8 (code bug): confirming the `/settings` command clears the prompt
draft with a bare `setPromptDraft('')` but leaves the cursor at its old
position, so immediately afterwards `promptCursor = 9` exceeds the empty
buffer's length — violating the editor invariant the spec states (all the
sibling command branches reset the cursor with `updatePrompt('', 0)`). -/
theorem settingsCommand_cursor_out_of_bounds :
    handleInput { mode := .localMode } { promptDraft := "/settings", promptCursor := 9 }
        { key := { ret := true } }
      = ({ settingsOpen := true, promptCursor := 9 }, []) ∧
    (({ settingsOpen := true, promptCursor := 9 } : DisplayState).promptDraft.length
      < ({ settingsOpen := true, promptCursor := 9 } : DisplayState).promptCursor) := by
  exact ⟨rfl, by decide⟩

/-! ## C9: free-text edit commit and escape -/

/-- C9 counterexample: confirming the free-text edit commits the raw
accumulated text, not its trimmed form: with text `" x "` the draft model
becomes `" x "`, while `trim " x " = "x"`. -/
theorem editCommit_not_trimmed :
    ((handleInput { mode := .remoteMode }
        { settingsOpen := true, editingField := some .model, draftTextInput := " x " }
        { key := { ret := true } }).1.draftModel = " x ") ∧
    jsTrim " x " ≠ " x " := by
  exact ⟨rfl, by decide⟩

/-- C9 (amended): in the free-text edit sub-state, confirming commits the
current text verbatim (untrimmed — trimming happens only in
`normalizeSettings` on save) into the corresponding draft field and exits
editing; escape exits editing and leaves every draft field exactly as it
was. -/
theorem editField_commit_and_escape (p : DisplayProps) (s : DisplayState)
    (f : PickerField) (ev : InputEvent)
    (hact : s.actionInProgress = false)
    (hopen : s.settingsOpen = true)
    (hedit : s.editingField = some f)
    (hnotc : ¬(ev.key.ctrl = true ∧ ev.input = "c")) :
    (ev.key.escape = true →
      handleInput p s ev = ({ s with editingField := none, draftTextInput := "" }, [])) ∧
    (ev.key.escape = false → ev.key.ret = true →
      handleInput p s ev
        = ({ setDraftOfField s f s.draftTextInput with
              editingField := none, draftTextInput := "" }, [])) := by
  constructor
  · intro hesc
    simp [handleInput, hact, hnotc, hopen, hedit, handleEditingFieldInput, hesc]
  · intro hesc hret
    simp [handleInput, hact, hnotc, hopen, hedit, handleEditingFieldInput, hesc, hret]

/-- Witness for C9 (amended): a concrete edit of the model field, escaped
once and confirmed once. -/
theorem editField_commit_and_escape_witness :
    handleInput { mode := .remoteMode }
        { settingsOpen := true, editingField := some .model, draftTextInput := "abc" }
        { key := { escape := true } }
      = ({ settingsOpen := true }, []) ∧
    handleInput { mode := .remoteMode }
        { settingsOpen := true, editingField := some .model, draftTextInput := "abc" }
        { key := { ret := true } }
      = ({ settingsOpen := true, draftModel := "abc" }, []) :=
  ⟨(editField_commit_and_escape _ _ .model _ rfl rfl rfl (by simp)).1 rfl,
   (editField_commit_and_escape _ _ .model _ rfl rfl rfl (by simp)).2 rfl rfl⟩

/-! ## C10: profile extraction and hint reading -/

theorem charListLe_total : ∀ a b : List Char,
    charListLe a b = true ∨ charListLe b a = true := by
  intro a
  induction a with
  | nil => intro b; left; rfl
  | cons x xs ih =>
    intro b
    cases b with
    | nil => right; rfl
    | cons y ys =>
      by_cases h1 : x.toNat < y.toNat
      · left; simp [charListLe, h1]
      · by_cases h2 : y.toNat < x.toNat
        · right; simp [charListLe, h1, h2]
        · rcases ih ys with h | h
          · left; simp [charListLe, h1, h2, h]
          · right; simp [charListLe, h1, h2, h]

theorem charListLe_trans : ∀ a b c : List Char,
    charListLe a b = true → charListLe b c = true → charListLe a c = true := by
  intro a
  induction a with
  | nil => intro b c h1 h2; rfl
  | cons x xs ih =>
    intro b c h1 h2
    cases b with
    | nil => simp [charListLe] at h1
    | cons y ys =>
      cases c with
      | nil => simp [charListLe] at h2
      | cons z zs =>
        by_cases hxy : x.toNat < y.toNat
        · by_cases hyz : y.toNat < z.toNat
          · have hxz : x.toNat < z.toNat := by omega
            simp [charListLe, hxz]
          · by_cases hzy : z.toNat < y.toNat
            · simp [charListLe, hyz, hzy] at h2
            · have hxz : x.toNat < z.toNat := by omega
              simp [charListLe, hxz]
        · by_cases hyx : y.toNat < x.toNat
          · simp [charListLe, hxy, hyx] at h1
          · by_cases hyz : y.toNat < z.toNat
            · have hxz : x.toNat < z.toNat := by omega
              simp [charListLe, hxz]
            · by_cases hzy : z.toNat < y.toNat
              · simp [charListLe, hyz, hzy] at h2
              · have h1a : charListLe xs ys = true := by
                  simpa [charListLe, hxy, hyx] using h1
                have h2a : charListLe ys zs = true := by
                  simpa [charListLe, hyz, hzy] using h2
                have hxz : ¬x.toNat < z.toNat := by omega
                have hzx : ¬z.toNat < x.toNat := by omega
                simp [charListLe, hxz, hzx, ih ys zs h1a h2a]

theorem charListLe_antisymm : ∀ a b : List Char,
    charListLe a b = true → charListLe b a = true → a = b := by
  intro a
  induction a with
  | nil =>
    intro b h1 h2
    cases b with
    | nil => rfl
    | cons y ys => simp [charListLe] at h2
  | cons x xs ih =>
    intro b h1 h2
    cases b with
    | nil => simp [charListLe] at h1
    | cons y ys =>
      by_cases hxy : x.toNat < y.toNat
      · have hyx : ¬y.toNat < x.toNat := by omega
        simp [charListLe, hxy, hyx] at h2
      · by_cases hyx : y.toNat < x.toNat
        · simp [charListLe, hxy, hyx] at h1
        · have hnat : x.toNat = y.toNat := by omega
          have hx : x = y :=
            Char.ext (UInt32.toNat.inj (show UInt32.toNat x.val = UInt32.toNat y.val from hnat))
          have h1a : charListLe xs ys = true := by
            simpa [charListLe, hxy, hyx] using h1
          have h2a : charListLe ys xs = true := by
            simpa [charListLe, hxy, hyx] using h2
          rw [hx, ih ys h1a h2a]

theorem stringLe_total : ∀ a b : String, stringLe a b = true ∨ stringLe b a = true :=
  fun a b => charListLe_total a.data b.data

theorem stringLe_trans : ∀ a b c : String,
    stringLe a b = true → stringLe b c = true → stringLe a c = true :=
  fun a b c h1 h2 => charListLe_trans a.data b.data c.data h1 h2

theorem stringLe_antisymm : ∀ a b : String,
    stringLe a b = true → stringLe b a = true → a = b := by
  intro a b h1 h2
  cases a with
  | mk la =>
    cases b with
    | mk lb => exact congrArg String.mk (charListLe_antisymm la lb h1 h2)

theorem setInsert_nodup (l : List String) (x : String) (h : l.Nodup) :
    (setInsert l x).Nodup := by
  unfold setInsert
  by_cases hx : x ∈ l
  · rw [if_pos hx]; exact h
  · rw [if_neg hx]; simp [List.nodup_append, h, hx]

theorem declaredProfilesStep_nodup (acc : List String) (line : String)
    (h : acc.Nodup) : (declaredProfilesStep acc line).Nodup := by
  unfold declaredProfilesStep
  by_cases hc : jsTrim line = "" ∨ strStartsWith (jsTrim line) "#"
  · rw [if_pos hc]; exact h
  · rw [if_neg hc]
    cases profileHeaderName (jsTrim line) with
    | none => exact h
    | some name => exact setInsert_nodup acc name h

theorem foldl_declaredProfilesStep_nodup (ls : List String) :
    ∀ acc : List String, acc.Nodup → (ls.foldl declaredProfilesStep acc).Nodup := by
  induction ls with
  | nil => intro acc h; exact h
  | cons l rest ih =>
    intro acc h
    rw [List.foldl_cons]
    exact ih _ (declaredProfilesStep_nodup acc l h)

theorem declaredProfiles_nodup (toml : String) : (declaredProfiles toml).Nodup :=
  foldl_declaredProfilesStep_nodup _ [] List.nodup_nil

theorem ignoringSoftHyphenLe_total : ∀ a b : String,
    ignoringSoftHyphenLe a b = true ∨ ignoringSoftHyphenLe b a = true :=
  fun a b =>
    charListLe_total (a.data.filter (fun c => c.toNat ≠ 0xAD))
      (b.data.filter (fun c => c.toNat ≠ 0xAD))

theorem ignoringSoftHyphenLe_trans : ∀ a b c : String,
    ignoringSoftHyphenLe a b = true → ignoringSoftHyphenLe b c = true →
    ignoringSoftHyphenLe a c = true :=
  fun _ _ _ h1 h2 => charListLe_trans _ _ _ h1 h2

/-- C10 counterexample: `localeCompare` (ICU collation) can compare two
distinct names equal — soft hyphens are collation-ignorable, so
`'ab'.localeCompare('a­b')` is `0` — and `Array.prototype.sort` is
stable, so among such ties the output follows `Set` insertion order.  With
the consistent comparator `ignoringSoftHyphenLe`, which has exactly that
tie, two config files declaring the same two names under swapped section
headers yield differently ordered profile lists, refuting "the order of
section headers in the file never affects the returned order". -/
theorem extractProfiles_headerOrder_dependent :
    ignoringSoftHyphenLe "a­b" "ab" = true ∧
    ignoringSoftHyphenLe "ab" "a­b" = true ∧
    ("a­b" : String) ≠ "ab" ∧
    List.Perm (declaredProfiles "[profiles.a­b]\n[profiles.ab]")
      (declaredProfiles "[profiles.ab]\n[profiles.a­b]") ∧
    extractProfiles ignoringSoftHyphenLe "[profiles.a­b]\n[profiles.ab]"
      = ["a­b", "ab"] ∧
    extractProfiles ignoringSoftHyphenLe "[profiles.ab]\n[profiles.a­b]"
      = ["ab", "a­b"] ∧
    extractProfiles ignoringSoftHyphenLe "[profiles.a­b]\n[profiles.ab]"
      ≠ extractProfiles ignoringSoftHyphenLe "[profiles.ab]\n[profiles.a­b]" := by
  decide

/-- C10 (amended): for every consistent comparator (total and transitive,
as ECMA-402 requires of `localeCompare`), `extractProfiles` returns each
profile name declared by a `[profiles.X]` or `[profile.X]` header exactly
once, sorted by the comparator; the returned order is independent of the
order of section headers provided the comparator never compares two
distinct names equal (ICU collation can, and then the stable sort lets
header order show through — see the counterexample).  When the config file
is absent or unreadable, `readCodexModelHints` returns the all-absent hint
object rather than raising an error, regardless of the comparator. -/
theorem extractProfiles_spec (le : String → String → Bool)
    (htot : ∀ a b, le a b = true ∨ le b a = true)
    (htrans : ∀ a b c, le a b = true → le b c = true → le a c = true) :
    (∀ toml, (extractProfiles le toml).Nodup) ∧
    (∀ toml name, name ∈ extractProfiles le toml ↔ name ∈ declaredProfiles toml) ∧
    (∀ toml name, name ∈ extractProfiles le toml →
      (extractProfiles le toml).count name = 1) ∧
    (∀ toml, (extractProfiles le toml).Sorted (fun a b => le a b = true)) ∧
    ((∀ a b, le a b = true → le b a = true → a = b) →
      ∀ toml1 toml2, List.Perm (declaredProfiles toml1) (declaredProfiles toml2) →
        extractProfiles le toml1 = extractProfiles le toml2) ∧
    readCodexModelHints le none = ({} : CodexModelHints) := by
  haveI htotI : IsTotal String (fun a b => le a b = true) := ⟨htot⟩
  haveI htransI : IsTrans String (fun a b => le a b = true) := ⟨htrans⟩
  have hperm : ∀ toml, List.Perm (extractProfiles le toml) (declaredProfiles toml) :=
    fun toml => List.perm_insertionSort _ _
  have hnodup : ∀ toml, (extractProfiles le toml).Nodup :=
    fun toml => ((hperm toml).nodup_iff).mpr (declaredProfiles_nodup toml)
  refine ⟨hnodup, ?_, ?_, ?_, ?_, rfl⟩
  · intro toml name; exact (hperm toml).mem_iff
  · intro toml name hm; exact List.count_eq_one_of_mem (hnodup toml) hm
  · intro toml; exact List.sorted_insertionSort _ _
  · intro hanti toml1 toml2 hp
    haveI hantiI : IsAntisymm String (fun a b => le a b = true) := ⟨hanti⟩
    exact List.eq_of_perm_of_sorted (((hperm toml1).trans hp).trans (hperm toml2).symm)
      (List.sorted_insertionSort _ _) (List.sorted_insertionSort _ _)

/-- Witness for C10 (amended) at the code-point comparator (total,
transitive and antisymmetric) and concrete config files: the declared name
appears exactly once, and swapping the header order leaves the result
unchanged. -/
theorem extractProfiles_spec_witness :
    (extractProfiles stringLe "[profiles.b]\n[profiles.a]").count "a" = 1 ∧
    extractProfiles stringLe "[profiles.b]\n[profiles.a]"
      = extractProfiles stringLe "[profiles.a]\n[profiles.b]" :=
  ⟨(extractProfiles_spec stringLe stringLe_total stringLe_trans).2.2.1 _ "a" (by decide),
   (extractProfiles_spec stringLe stringLe_total stringLe_trans).2.2.2.2.1
      stringLe_antisymm _ _ (by decide)⟩
